import Mathlib

/-!
Verification of the subscription-manager library (`subscription_manager/subscription.py`).

The Python module defines a `Subscription` dataclass (fields `name`, `cost`,
`renewal_date`, `active` with default `True`) and a `SubscriptionManager`
holding a `Dict[str, Subscription]` keyed by name (Python dicts preserve
insertion order).  We embed dates as integers (day ordinals: Python `date`
comparison and addition of a `timedelta` of `k` days correspond exactly to integer
comparison and addition), monetary cost as rationals, the dict of the manager as an
association list in insertion order, and the raising operations as
`Except`-valued functions (an exception leaves the state of the caller unchanged,
which the functional embedding captures by returning no new state on error).
-/

namespace SubscriptionModel

/-- A calendar date, embedded as its day ordinal. -/
abbrev Date := Int

/-- Embeds the `Subscription` dataclass.  The default value of `active`
mirrors `active: bool = True` in the source. -/
structure Subscription where
  name : String
  cost : Rat
  renewal_date : Date
  active : Bool := true
deriving Repr, DecidableEq

/-- Embeds `Subscription.cancel`: `self.active = False`. -/
def Subscription.cancel (s : Subscription) : Subscription :=
  { s with active := false }

/-- Embeds `Subscription.renew` with an explicitly supplied `today`:
`self.active = True` and `self.renewal_date` becomes `today` plus a 30-day `timedelta`. -/
def Subscription.renew (s : Subscription) (today : Date) : Subscription :=
  { s with active := true, renewal_date := today + 30 }

/-- The two exception kinds of the manager: `ValueError` on duplicate add
and `KeyError` on a missing name. -/
inductive ManagerError where
  | duplicateName (name : String)
  | notFoundName (name : String)
deriving Repr, DecidableEq

/-- Embeds `SubscriptionManager`: the insertion-ordered dict
`self._subscriptions: Dict[str, Subscription]` becomes an association list. -/
structure SubscriptionManager where
  _subscriptions : List (String × Subscription) := []
deriving Repr, DecidableEq

namespace SubscriptionManager

/-- The keys of the dict, in insertion order. -/
def keys (m : SubscriptionManager) : List String :=
  m._subscriptions.map (·.1)

/-- The values of the dict, in insertion order (`self._subscriptions.values()`). -/
def values (m : SubscriptionManager) : List Subscription :=
  m._subscriptions.map (·.2)

/-- Embeds `add_subscription`: raise `ValueError` if `subscription.name in
self._subscriptions`, else `self._subscriptions[subscription.name] = subscription`
(a fresh dict key is appended at the end). -/
def add_subscription (m : SubscriptionManager) (s : Subscription) :
    Except ManagerError SubscriptionManager :=
  if s.name ∈ m.keys then .error (.duplicateName s.name)
  else .ok ⟨m._subscriptions ++ [(s.name, s)]⟩

/-- Embeds `remove_subscription`: raise `KeyError` if `name not in
self._subscriptions`, else `del self._subscriptions[name]` (dict deletion keeps
the remaining entries in order). -/
def remove_subscription (m : SubscriptionManager) (name : String) :
    Except ManagerError SubscriptionManager :=
  if name ∈ m.keys then .ok ⟨m._subscriptions.filter (fun p => p.1 != name)⟩
  else .error (.notFoundName name)

/-- Embeds `auto_cancel_subscriptions` with an explicitly supplied `today`:
`for sub in list(self._subscriptions.values()): if sub.active and
sub.renewal_date <= today: sub.cancel()`. -/
def auto_cancel_subscriptions (m : SubscriptionManager) (today : Date) :
    SubscriptionManager :=
  ⟨m._subscriptions.map (fun p =>
    if p.2.active ∧ p.2.renewal_date ≤ today then (p.1, p.2.cancel) else p)⟩

/-- Embeds `renew_subscription`: raise `KeyError` if absent, else
the stored subscription is renewed in place, keeping its position. -/
def renew_subscription (m : SubscriptionManager) (name : String) (today : Date) :
    Except ManagerError SubscriptionManager :=
  if name ∈ m.keys then
    .ok ⟨m._subscriptions.map (fun p => if p.1 = name then (p.1, p.2.renew today) else p)⟩
  else .error (.notFoundName name)

/-- Embeds `cancel_subscription`: raise `KeyError` if absent, else
`self._subscriptions[name].cancel()`. -/
def cancel_subscription (m : SubscriptionManager) (name : String) :
    Except ManagerError SubscriptionManager :=
  if name ∈ m.keys then
    .ok ⟨m._subscriptions.map (fun p => if p.1 = name then (p.1, p.2.cancel) else p)⟩
  else .error (.notFoundName name)

/-- Embeds `get_subscription`: raise `KeyError` if absent, else return
`self._subscriptions[name]`. -/
def get_subscription (m : SubscriptionManager) (name : String) :
    Except ManagerError Subscription :=
  match m._subscriptions.find? (fun p => p.1 == name) with
  | some p => .ok p.2
  | none => .error (.notFoundName name)

/-- Embeds `list_subscriptions`: all values, or only the active ones. -/
def list_subscriptions (m : SubscriptionManager) (active_only : Bool) :
    List Subscription :=
  if active_only then m.values.filter (·.active) else m.values

/-- Embeds `total_monthly_cost`: `sum(sub.cost for sub in
self.list_subscriptions(...))` over the filtered list. -/
def total_monthly_cost (m : SubscriptionManager) (active_only : Bool) : Rat :=
  ((m.list_subscriptions active_only).map (·.cost)).sum

/-- Embeds `total_savings`: `sum(sub.cost for sub in self.list_subscriptions()
if not sub.active)` (the default of `list_subscriptions` is `active_only = False`). -/
def total_savings (m : SubscriptionManager) : Rat :=
  (((m.list_subscriptions false).filter (fun s => !s.active)).map (·.cost)).sum

end SubscriptionManager

/-- The public operations of the manager, for trace-based reachability.
Query operations (`get`, `list`, the aggregate sums) are included for
completeness; they construct no new manager state. -/
inductive Op where
  | addOp (s : Subscription)
  | removeOp (n : String)
  | cancelOp (n : String)
  | renewOp (n : String) (d : Date)
  | autoCancelOp (d : Date)
  | getOp (n : String)
  | listOp (b : Bool)
  | totalCostOp (b : Bool)
  | totalSavingsOp
deriving Repr, DecidableEq

/-- On success adopt the new state; a raised exception leaves the state as it
was (Python exceptions in this module are raised before any mutation). -/
def exceptState (m : SubscriptionManager) :
    Except ManagerError SubscriptionManager → SubscriptionManager
  | .ok m2 => m2
  | .error _ => m

/-- The state after one public operation. -/
def applyOp (m : SubscriptionManager) : Op → SubscriptionManager
  | .addOp s => exceptState m (m.add_subscription s)
  | .removeOp n => exceptState m (m.remove_subscription n)
  | .cancelOp n => exceptState m (m.cancel_subscription n)
  | .renewOp n d => exceptState m (m.renew_subscription n d)
  | .autoCancelOp d => m.auto_cancel_subscriptions d
  | _ => m

/-- The state reached by running a sequence of public operations on a fresh
manager (`__init__` starts from the empty dict). -/
def runOps (ops : List Op) : SubscriptionManager :=
  ops.foldl applyOp ⟨[]⟩

/-- Modelled from the words of the spec, for comparison with the code: the names
inserted by the successful `add` calls, in order, dropping the removed ones
("Order: insertion order of `add` calls"). -/
def specOrderStep (order : List String) : Op → List String
  | .addOp s => if s.name ∈ order then order else order ++ [s.name]
  | .removeOp n => order.filter (fun k => k != n)
  | _ => order

/-- Modelled from the words of the spec: the expected name order after a trace. -/
def specInsertionOrder (ops : List Op) : List String :=
  ops.foldl specOrderStep []

/-- The manager invariant: every key equals its stored `name`, and
no two entries share a name. -/
def managerInv (m : SubscriptionManager) : Prop :=
  (∀ p ∈ m._subscriptions, p.1 = p.2.name) ∧ m.keys.Nodup

instance (m : SubscriptionManager) : Decidable (managerInv m) := by
  unfold managerInv; infer_instance

/-- Sample fixture: an active subscription named "A" that is past due on day 10. -/
def subA : Subscription := ⟨"A", 10, 5, true⟩

/-- Sample fixture: an active subscription named "B" not yet due on day 10. -/
def subB : Subscription := ⟨"B", 3, 100, true⟩

/-- Sample fixture: an already-inactive subscription named "C" with a past date. -/
def subC : Subscription := ⟨"C", 4, 2, false⟩

/-- Sample fixture: a manager holding `subA`, `subB`, `subC` in that order. -/
def mABC : SubscriptionManager := ⟨[("A", subA), ("B", subB), ("C", subC)]⟩

/-- How many low bits must be dropped from `m` so that at most 53 significant
bits remain (the first argument is fuel for structural recursion; passing `m`
itself is always enough). -/
def dropBits : Nat → Nat → Nat
  | 0, _ => 0
  | f + 1, m => if m < 2 ^ 53 then 0 else dropBits f (m / 2) + 1

/-- Rounds a natural number to the nearest IEEE-754 binary64 value, ties to
even: integers below 2 to the 53rd are exactly representable and kept; larger
ones keep 53 significant bits.  This is the rounding the Python `float`
addition in the source applies to integer-valued sums. -/
def roundB64 (n : Nat) : Nat :=
  let shift := dropBits n n
  if shift = 0 then n
  else
    let q := n / 2 ^ shift
    let r := n % 2 ^ shift
    let half := 2 ^ (shift - 1)
    let q2 := if r < half then q
      else if half < r then q + 1
      else if q % 2 = 0 then q else q + 1
    q2 * 2 ^ shift

/-- The integer value of a cost, for managers whose costs are nonnegative
integers (every such cost below 2 to the 53rd is an exact binary64 value,
so the embedding as an integer loses nothing). -/
def costNat (s : Subscription) : Nat :=
  s.cost.num.toNat

/-- The sum `total_monthly_cost` computes, in the IEEE-754 binary64 arithmetic
the source actually uses: Python `sum` folds left starting from 0 with each
addition correctly rounded.  Restricted to integer-valued costs, on which
binary64 addition is integer addition followed by `roundB64`. -/
def SubscriptionManager.total_monthly_cost_float (m : SubscriptionManager)
    (active_only : Bool) : Nat :=
  ((m.list_subscriptions active_only).map costNat).foldl (fun a c => roundB64 (a + c)) 0

/-- The sum `total_savings` computes, in binary64 arithmetic, restricted to
integer-valued costs as in `total_monthly_cost_float`. -/
def SubscriptionManager.total_savings_float (m : SubscriptionManager) : Nat :=
  (((m.list_subscriptions false).filter (fun s => !s.active)).map costNat).foldl
    (fun a c => roundB64 (a + c)) 0

/-- Sample fixture for the float rounding example: one inactive subscription
costing 10 to the 16th and two active ones costing 1 each. -/
def mPQR : SubscriptionManager :=
  ⟨[("P", ⟨"P", 10000000000000000, 0, false⟩),
    ("Q", ⟨"Q", 1, 0, true⟩),
    ("R", ⟨"R", 1, 0, true⟩)]⟩

section Lemmas

/-- `cancel` rewritten field by field. -/
theorem Subscription.cancel_eq (s : Subscription) :
    s.cancel = Subscription.mk s.name s.cost s.renewal_date false := rfl

/-- `renew` rewritten field by field. -/
theorem Subscription.renew_eq (s : Subscription) (d : Date) :
    s.renew d = Subscription.mk s.name s.cost (d + 30) true := rfl

/-- Mapping a first-component-preserving function over the entries preserves
the key list. -/
theorem map_fst_of_fst (l : List (String × Subscription))
    (f : String × Subscription → String × Subscription)
    (hf : ∀ p, (f p).1 = p.1) :
    (l.map f).map (·.1) = l.map (·.1) := by
  rw [List.map_map]
  exact List.map_congr_left (fun p _ => hf p)

/-- Filtering entries by key commutes with taking the key list. -/
theorem map_fst_filter_ne (l : List (String × Subscription)) (n : String) :
    (l.filter (fun p => p.1 != n)).map (·.1) = (l.map (·.1)).filter (fun k => k != n) := by
  induction l with
  | nil => rfl
  | cons p l ih =>
    simp only [List.filter_cons, List.map_cons]
    cases h : (p.1 != n) <;> simp [h, ih]

/-- One operation moves the key list exactly as the insertion-order
rule predicts. -/
theorem keys_applyOp (m : SubscriptionManager) (op : Op) :
    (applyOp m op).keys = specOrderStep m.keys op := by
  cases op with
  | addOp s =>
    by_cases h : s.name ∈ m.keys
    · simp only [applyOp, SubscriptionManager.add_subscription, if_pos h, exceptState,
        specOrderStep, if_pos h]
    · simp only [applyOp, SubscriptionManager.add_subscription, if_neg h, exceptState,
        specOrderStep, if_neg h]
      simp [SubscriptionManager.keys]
  | removeOp n =>
    by_cases h : n ∈ m.keys
    · simp only [applyOp, SubscriptionManager.remove_subscription, if_pos h, exceptState,
        specOrderStep]
      exact map_fst_filter_ne _ n
    · simp only [applyOp, SubscriptionManager.remove_subscription, if_neg h, exceptState,
        specOrderStep]
      refine (List.filter_eq_self.mpr ?_).symm
      intro k hk
      simp only [bne_iff_ne, ne_eq]
      intro he
      exact h (he ▸ hk)
  | cancelOp n =>
    by_cases h : n ∈ m.keys
    · simp only [applyOp, SubscriptionManager.cancel_subscription, if_pos h, exceptState,
        specOrderStep]
      exact map_fst_of_fst _ _ (fun p => by by_cases hp : p.1 = n <;> simp [hp])
    · simp only [applyOp, SubscriptionManager.cancel_subscription, if_neg h, exceptState,
        specOrderStep]
  | renewOp n d =>
    by_cases h : n ∈ m.keys
    · simp only [applyOp, SubscriptionManager.renew_subscription, if_pos h, exceptState,
        specOrderStep]
      exact map_fst_of_fst _ _ (fun p => by by_cases hp : p.1 = n <;> simp [hp])
    · simp only [applyOp, SubscriptionManager.renew_subscription, if_neg h, exceptState,
        specOrderStep]
  | autoCancelOp d =>
    simp only [applyOp, SubscriptionManager.auto_cancel_subscriptions, specOrderStep]
    exact map_fst_of_fst _ _
      (fun p => by by_cases hp : p.2.active ∧ p.2.renewal_date ≤ d <;> simp [hp])
  | getOp n => rfl
  | listOp b => rfl
  | totalCostOp b => rfl
  | totalSavingsOp => rfl

/-- A trace moves the key list exactly as the insertion-order rule
predicts, from any starting state. -/
theorem keys_foldl : ∀ (ops : List Op) (m : SubscriptionManager),
    (ops.foldl applyOp m).keys = ops.foldl specOrderStep m.keys
  | [], _ => rfl
  | op :: ops, m => by
    rw [List.foldl_cons, List.foldl_cons, keys_foldl ops, keys_applyOp]

/-- Entrywise maps that preserve the key and the stored name preserve the
manager invariant. -/
theorem inv_map (l : List (String × Subscription))
    (f : String × Subscription → String × Subscription)
    (hf1 : ∀ p, (f p).1 = p.1) (hf2 : ∀ p, (f p).2.name = p.2.name)
    (h : managerInv ⟨l⟩) : managerInv ⟨l.map f⟩ := by
  constructor
  · intro q hq
    obtain ⟨p, hp, rfl⟩ := List.mem_map.mp hq
    rw [hf1, hf2]
    exact h.1 p hp
  · show ((l.map f).map (·.1)).Nodup
    rw [map_fst_of_fst l f hf1]
    exact h.2

/-- Every operation preserves the manager invariant. -/
theorem inv_applyOp (m : SubscriptionManager) (op : Op) (h : managerInv m) :
    managerInv (applyOp m op) := by
  obtain ⟨l⟩ := m
  cases op with
  | addOp s =>
    by_cases hs : s.name ∈ SubscriptionManager.keys ⟨l⟩
    · simpa only [applyOp, SubscriptionManager.add_subscription, if_pos hs, exceptState] using h
    · simp only [applyOp, SubscriptionManager.add_subscription, if_neg hs, exceptState]
      constructor
      · intro q hq
        rcases List.mem_append.mp hq with hq | hq
        · exact h.1 q hq
        · simp only [List.mem_singleton] at hq
          subst hq
          rfl
      · show (((l ++ [(s.name, s)]).map (·.1))).Nodup
        rw [List.map_append]
        have h2 : (l.map (·.1)).Nodup := h.2
        have hs2 : s.name ∉ l.map (·.1) := hs
        simp [List.nodup_append, h2, hs2]
  | removeOp n =>
    by_cases hn : n ∈ SubscriptionManager.keys ⟨l⟩
    · simp only [applyOp, SubscriptionManager.remove_subscription, if_pos hn, exceptState]
      constructor
      · intro q hq
        exact h.1 q (List.mem_of_mem_filter hq)
      · show ((l.filter (fun p => p.1 != n)).map (·.1)).Nodup
        rw [map_fst_filter_ne]
        exact List.Nodup.filter _ h.2
    · simpa only [applyOp, SubscriptionManager.remove_subscription, if_neg hn, exceptState] using h
  | cancelOp n =>
    by_cases hn : n ∈ SubscriptionManager.keys ⟨l⟩
    · simp only [applyOp, SubscriptionManager.cancel_subscription, if_pos hn, exceptState]
      exact inv_map l _ (fun p => by by_cases hp : p.1 = n <;> simp [hp])
        (fun p => by by_cases hp : p.1 = n <;> simp [hp, Subscription.cancel]) h
    · simpa only [applyOp, SubscriptionManager.cancel_subscription, if_neg hn, exceptState] using h
  | renewOp n d =>
    by_cases hn : n ∈ SubscriptionManager.keys ⟨l⟩
    · simp only [applyOp, SubscriptionManager.renew_subscription, if_pos hn, exceptState]
      exact inv_map l _ (fun p => by by_cases hp : p.1 = n <;> simp [hp])
        (fun p => by by_cases hp : p.1 = n <;> simp [hp, Subscription.renew]) h
    · simpa only [applyOp, SubscriptionManager.renew_subscription, if_neg hn, exceptState] using h
  | autoCancelOp d =>
    simp only [applyOp, SubscriptionManager.auto_cancel_subscriptions]
    exact inv_map l _
      (fun p => by by_cases hp : p.2.active ∧ p.2.renewal_date ≤ d <;> simp [hp])
      (fun p => by
        by_cases hp : p.2.active ∧ p.2.renewal_date ≤ d <;> simp [hp, Subscription.cancel]) h
  | getOp n => exact h
  | listOp b => exact h
  | totalCostOp b => exact h
  | totalSavingsOp => exact h

/-- A whole trace preserves the manager invariant. -/
theorem inv_foldl : ∀ (ops : List Op) (m : SubscriptionManager),
    managerInv m → managerInv (ops.foldl applyOp m)
  | [], _, h => h
  | op :: ops, m, h => by
    rw [List.foldl_cons]
    exact inv_foldl ops _ (inv_applyOp m op h)

/-- Every reachable manager state satisfies the invariant. -/
theorem inv_runOps (ops : List Op) : managerInv (runOps ops) :=
  inv_foldl ops ⟨[]⟩ ⟨by simp, List.nodup_nil⟩

/-- Summing a function over a filtered list equals summing the function
guarded by the filter predicate over the whole list. -/
theorem sum_map_filter (q : Subscription → Bool) (c : Subscription → Rat) :
    ∀ l : List Subscription,
      ((l.filter q).map c).sum = (l.map (fun s => if q s then c s else 0)).sum
  | [] => rfl
  | s :: l => by
    by_cases h : q s <;>
      simp [List.filter_cons, h, sum_map_filter q c l]

/-- A sum over all subscriptions splits into the active part plus the
inactive part. -/
theorem sum_split_active (c : Subscription → Rat) :
    ∀ l : List Subscription,
      (l.map c).sum =
        ((l.filter (·.active)).map c).sum + ((l.filter (fun s => !s.active)).map c).sum
  | [] => by simp
  | s :: l => by
    cases hs : s.active <;>
      simp [List.filter_cons, hs, sum_split_active c l] <;> ring

end Lemmas

section Claims

/-- Claim C9: immediately after construction the `active` flag of a subscription is
`true` — the dataclass default `active: bool = True` fills the omitted field. -/
theorem construction_default_active (n : String) (c : Rat) (d : Date) :
    ({ name := n, cost := c, renewal_date := d } : Subscription).active = true := rfl

/-- Claim C1: `auto_cancel(d)` cancels exactly the subscriptions that are
active with `renewal_date <= d` (setting only their `active` flag to `false`,
all other fields kept) and leaves every other entry — including
already-inactive ones with `renewal_date <= d` — unchanged in every field;
the key list and the number of entries are unchanged. -/
theorem auto_cancel_spec (m : SubscriptionManager) (d : Date) :
    (m.auto_cancel_subscriptions d).keys = m.keys ∧
    (m.auto_cancel_subscriptions d)._subscriptions.length = m._subscriptions.length ∧
    ∀ (i : Nat) (k : String) (s : Subscription), m._subscriptions[i]? = some (k, s) →
      (m.auto_cancel_subscriptions d)._subscriptions[i]? =
        some (k, if s.active ∧ s.renewal_date ≤ d
                 then Subscription.mk s.name s.cost s.renewal_date false
                 else s) := by
  refine ⟨?_, ?_, ?_⟩
  · exact map_fst_of_fst _ _
      (fun p => by by_cases hp : p.2.active ∧ p.2.renewal_date ≤ d <;> simp [hp])
  · simp [SubscriptionManager.auto_cancel_subscriptions]
  · intro i k s hi
    simp only [SubscriptionManager.auto_cancel_subscriptions, List.getElem?_map, hi]
    by_cases hp : s.active ∧ s.renewal_date ≤ d <;> simp [hp, Subscription.cancel]

/-- Witness for C1 at a concrete manager: on day 10, the past-due active entry
"A" is cancelled in place. -/
theorem auto_cancel_spec_witness :
    mABC._subscriptions[0]? = some ("A", subA) ∧
    (mABC.auto_cancel_subscriptions 10)._subscriptions[0]? =
      some ("A", if subA.active ∧ subA.renewal_date ≤ 10
                 then Subscription.mk subA.name subA.cost subA.renewal_date false
                 else subA) :=
  ⟨by rfl, (auto_cancel_spec mABC 10).2.2 0 "A" subA (by rfl)⟩

/-- Claim C2: `renew(d)` makes the subscription active with
`renewal_date = d + 30`, keeping `name` and `cost`, regardless of the prior
`active` flag and prior `renewal_date`; the renew of the manager on an existing name
does the same to exactly that entry and leaves the others unchanged. -/
theorem renew_spec (s : Subscription) (d : Date) :
    s.renew d = Subscription.mk s.name s.cost (d + 30) true ∧
    ∀ (m : SubscriptionManager) (n : String), n ∈ m.keys →
      ∃ m2, m.renew_subscription n d = Except.ok m2 ∧
        m2._subscriptions.length = m._subscriptions.length ∧
        ∀ (i : Nat) (k : String) (t : Subscription), m._subscriptions[i]? = some (k, t) →
          m2._subscriptions[i]? =
            some (k, if k = n then Subscription.mk t.name t.cost (d + 30) true else t) := by
  refine ⟨rfl, ?_⟩
  intro m n hn
  refine ⟨⟨m._subscriptions.map (fun p => if p.1 = n then (p.1, p.2.renew d) else p)⟩, ?_, ?_, ?_⟩
  · simp only [SubscriptionManager.renew_subscription, if_pos hn]
  · simp
  · intro i k t hi
    simp only [List.getElem?_map, hi]
    by_cases hk : k = n <;> simp [hk, Subscription.renew]

/-- Witness for C2: renewing the cancelled "C" in `mABC` on day 7 makes it
active with renewal date 37, leaving entry "A" alone. -/
theorem renew_spec_witness :
    ((subC.renew 7 = Subscription.mk subC.name subC.cost ((7 : Date) + 30) true) ∧
      "C" ∈ mABC.keys) ∧
    ∃ m2, mABC.renew_subscription "C" 7 = Except.ok m2 ∧
      m2._subscriptions.length = mABC._subscriptions.length ∧
      ∀ (i : Nat) (k : String) (t : Subscription), mABC._subscriptions[i]? = some (k, t) →
        m2._subscriptions[i]? =
          some (k, if k = "C" then Subscription.mk t.name t.cost ((7 : Date) + 30) true else t) :=
  ⟨⟨(renew_spec subC 7).1, by decide⟩, (renew_spec subC 7).2 mABC "C" (by decide)⟩

/-- Claim C8: `cancel` sets `active` to `false` and changes nothing else
(`name`, `cost`, `renewal_date` kept); it is idempotent; and the cancel of the manager on an existing name does the same to exactly that entry, leaving the
others unchanged. -/
theorem cancel_spec (s : Subscription) :
    s.cancel = Subscription.mk s.name s.cost s.renewal_date false ∧
    s.cancel.cancel = s.cancel ∧
    ∀ (m : SubscriptionManager) (n : String), n ∈ m.keys →
      ∃ m2, m.cancel_subscription n = Except.ok m2 ∧
        m2._subscriptions.length = m._subscriptions.length ∧
        ∀ (i : Nat) (k : String) (t : Subscription), m._subscriptions[i]? = some (k, t) →
          m2._subscriptions[i]? =
            some (k, if k = n then Subscription.mk t.name t.cost t.renewal_date false else t) := by
  refine ⟨rfl, rfl, ?_⟩
  intro m n hn
  refine ⟨⟨m._subscriptions.map (fun p => if p.1 = n then (p.1, p.2.cancel) else p)⟩, ?_, ?_, ?_⟩
  · simp only [SubscriptionManager.cancel_subscription, if_pos hn]
  · simp
  · intro i k t hi
    simp only [List.getElem?_map, hi]
    by_cases hk : k = n <;> simp [hk, Subscription.cancel]

/-- Witness for C8: cancelling "B" in `mABC` flips only its flag; cancelling
the already-cancelled `subC` again changes nothing. -/
theorem cancel_spec_witness :
    (subC.cancel = Subscription.mk subC.name subC.cost subC.renewal_date false ∧
      subC.cancel.cancel = subC.cancel ∧ "B" ∈ mABC.keys) ∧
    ∃ m2, mABC.cancel_subscription "B" = Except.ok m2 ∧
      m2._subscriptions.length = mABC._subscriptions.length ∧
      ∀ (i : Nat) (k : String) (t : Subscription), mABC._subscriptions[i]? = some (k, t) →
        m2._subscriptions[i]? =
          some (k, if k = "B" then Subscription.mk t.name t.cost t.renewal_date false else t) :=
  ⟨⟨(cancel_spec subC).1, (cancel_spec subC).2.1, by decide⟩,
    (cancel_spec subC).2.2 mABC "B" (by decide)⟩

/-- Claim C3: `add` fails with the duplicate-name error exactly when the name
is already a key, and then the whole map is left unchanged; on a fresh name it
inserts the subscription at the end, keyed by its `name` field. -/
theorem add_spec (m : SubscriptionManager) (s : Subscription) :
    (s.name ∈ m.keys →
      m.add_subscription s = Except.error (ManagerError.duplicateName s.name) ∧
      applyOp m (Op.addOp s) = m) ∧
    (s.name ∉ m.keys →
      m.add_subscription s = Except.ok ⟨m._subscriptions ++ [(s.name, s)]⟩) := by
  constructor
  · intro h
    constructor
    · simp only [SubscriptionManager.add_subscription, if_pos h]
    · simp only [applyOp, SubscriptionManager.add_subscription, if_pos h, exceptState]
  · intro h
    simp only [SubscriptionManager.add_subscription, if_neg h]

/-- Witness for C3: adding a second "A" to `mABC` fails and leaves the manager
unchanged; adding fresh "D" appends it. -/
theorem add_spec_witness :
    ("A" ∈ mABC.keys ∧
      (mABC.add_subscription (Subscription.mk "A" 99 0 true) =
         Except.error (ManagerError.duplicateName "A") ∧
       applyOp mABC (Op.addOp (Subscription.mk "A" 99 0 true)) = mABC)) ∧
    ("D" ∉ mABC.keys ∧
      mABC.add_subscription (Subscription.mk "D" 1 1 true) =
        Except.ok ⟨mABC._subscriptions ++ [("D", Subscription.mk "D" 1 1 true)]⟩) :=
  ⟨⟨by decide, (add_spec mABC (Subscription.mk "A" 99 0 true)).1 (by decide)⟩,
   ⟨by decide, (add_spec mABC (Subscription.mk "D" 1 1 true)).2 (by decide)⟩⟩

/-- Claim C4: on a name absent from the map, `remove`, `get`, `renew` and
`cancel` all fail with the not-found error and the map is exactly as before;
removing the same name twice in a row fails the second time. -/
theorem not_found_spec (m : SubscriptionManager) (n : String) (d : Date)
    (h : n ∉ m.keys) :
    m.remove_subscription n = Except.error (ManagerError.notFoundName n) ∧
    m.get_subscription n = Except.error (ManagerError.notFoundName n) ∧
    m.renew_subscription n d = Except.error (ManagerError.notFoundName n) ∧
    m.cancel_subscription n = Except.error (ManagerError.notFoundName n) ∧
    applyOp m (Op.removeOp n) = m ∧
    applyOp m (Op.renewOp n d) = m ∧
    applyOp m (Op.cancelOp n) = m ∧
    ∀ (m0 m1 : SubscriptionManager) (n2 : String),
      m0.remove_subscription n2 = Except.ok m1 →
      m1.remove_subscription n2 = Except.error (ManagerError.notFoundName n2) := by
  have hf : m._subscriptions.find? (fun p => p.1 == n) = none := by
    apply List.find?_eq_none.mpr
    intro p hp
    simp only [beq_iff_eq]
    intro he
    exact h (he ▸ List.mem_map_of_mem (·.1) hp)
  refine ⟨?_, ?_, ?_, ?_, ?_, ?_, ?_, ?_⟩
  · simp only [SubscriptionManager.remove_subscription, if_neg h]
  · simp only [SubscriptionManager.get_subscription, hf]
  · simp only [SubscriptionManager.renew_subscription, if_neg h]
  · simp only [SubscriptionManager.cancel_subscription, if_neg h]
  · simp only [applyOp, SubscriptionManager.remove_subscription, if_neg h, exceptState]
  · simp only [applyOp, SubscriptionManager.renew_subscription, if_neg h, exceptState]
  · simp only [applyOp, SubscriptionManager.cancel_subscription, if_neg h, exceptState]
  · intro m0 m1 n2 hok
    by_cases h2 : n2 ∈ m0.keys
    · simp only [SubscriptionManager.remove_subscription, if_pos h2] at hok
      cases hok
      have habs : n2 ∉
          (SubscriptionManager.mk (m0._subscriptions.filter (fun p => p.1 != n2))).keys := by
        intro hmem
        obtain ⟨p, hp, hpe⟩ := List.mem_map.mp hmem
        have := List.of_mem_filter hp
        simp only [hpe, bne_self_eq_false] at this
        exact Bool.false_ne_true this
      simp only [SubscriptionManager.remove_subscription, if_neg habs]
    · simp only [SubscriptionManager.remove_subscription, if_neg h2] at hok
      cases hok

/-- Witness for C4: the name "Z" is absent from `mABC`, so every lookup-based
operation fails and leaves the state alone; removing "A" and then removing it
again fails the second time. -/
theorem not_found_spec_witness :
    "Z" ∉ mABC.keys ∧
    (mABC.remove_subscription "Z" = Except.error (ManagerError.notFoundName "Z") ∧
     mABC.get_subscription "Z" = Except.error (ManagerError.notFoundName "Z") ∧
     mABC.renew_subscription "Z" 3 = Except.error (ManagerError.notFoundName "Z") ∧
     mABC.cancel_subscription "Z" = Except.error (ManagerError.notFoundName "Z") ∧
     applyOp mABC (Op.removeOp "Z") = mABC ∧
     applyOp mABC (Op.renewOp "Z" 3) = mABC ∧
     applyOp mABC (Op.cancelOp "Z") = mABC ∧
     ∀ (m0 m1 : SubscriptionManager) (n2 : String),
       m0.remove_subscription n2 = Except.ok m1 →
       m1.remove_subscription n2 = Except.error (ManagerError.notFoundName n2)) :=
  ⟨by decide, not_found_spec mABC "Z" 3 (by decide)⟩

/-- Claim C5: the aggregate queries are the pointwise sums over the chosen
entries — `total_monthly_cost` with `active_only` set counts the cost of exactly
the active entries, with `active_only` unset it counts all entries, `total_savings` counts exactly the inactive entries — and each
returns 0 on an empty manager.  The queries are pure functions of the state. -/
theorem totals_spec (m : SubscriptionManager) :
    m.total_monthly_cost true = (m.values.map (fun s => if s.active then s.cost else 0)).sum ∧
    m.total_monthly_cost false = (m.values.map (·.cost)).sum ∧
    m.total_savings = (m.values.map (fun s => if s.active then 0 else s.cost)).sum ∧
    SubscriptionManager.total_monthly_cost ⟨[]⟩ true = 0 ∧
    SubscriptionManager.total_monthly_cost ⟨[]⟩ false = 0 ∧
    SubscriptionManager.total_savings ⟨[]⟩ = 0 := by
  refine ⟨?_, rfl, ?_, rfl, rfl, rfl⟩
  · exact sum_map_filter (·.active) (·.cost) m.values
  · refine (sum_map_filter (fun s => !s.active) (·.cost) m.values).trans ?_
    refine congrArg List.sum (List.map_congr_left ?_)
    intro s _
    cases hs : s.active <;> simp [hs]

/-- Counterexample for claim C10 as stated: the source sums IEEE-754 binary64
floats, and with costs 10^16 (inactive), 1 and 1 (both active) it computes
`total_monthly_cost(False)` as 10^16 while `total_monthly_cost(True) +
total_savings()` is 10^16 + 2 — adding 1.0 to 1e16 is absorbed by rounding,
while adding 2.0 is not, so the claimed decomposition fails on the program. -/
theorem total_decomposition_counterexample :
    mPQR.total_monthly_cost_float false ≠
      roundB64 (mPQR.total_monthly_cost_float true + mPQR.total_savings_float) := by
  decide

/-- Claim C10, amended: when the costs are summed with exact (rational)
arithmetic — rather than the rounding binary64 float arithmetic of the
source, under which the identity can fail — the all-entries cost sum
decomposes exactly into the active-entries sum plus the inactive-entries
sum. -/
theorem total_decomposition (m : SubscriptionManager) :
    m.total_monthly_cost false = m.total_monthly_cost true + m.total_savings := by
  simp only [SubscriptionManager.total_monthly_cost, SubscriptionManager.total_savings,
    SubscriptionManager.list_subscriptions, if_true, Bool.false_eq_true, if_false]
  exact sum_split_active (·.cost) m.values

/-- Claim C6: along any trace of public operations from a fresh manager, the
full listing is in the insertion order of the successful adds (with removed
names dropped, per the order rule of the spec); the active-only listing is the
same sequence filtered to the active ones; and a remove keeps the remaining
entries in their relative order (the state is the order-preserving filter
dropping the removed key, whether or not the name was present). -/
theorem list_order_spec (ops : List Op) (m : SubscriptionManager) (n : String) :
    ((runOps ops).list_subscriptions false).map (·.name) = specInsertionOrder ops ∧
    (runOps ops).list_subscriptions true =
      ((runOps ops).list_subscriptions false).filter (·.active) ∧
    (applyOp m (Op.removeOp n))._subscriptions =
      m._subscriptions.filter (fun p => p.1 != n) := by
  refine ⟨?_, rfl, ?_⟩
  · have hinv := inv_runOps ops
    have h1 : ((runOps ops).list_subscriptions false).map (·.name) =
        (runOps ops)._subscriptions.map (·.1) := by
      show (((runOps ops)._subscriptions.map (·.2)).map (·.name)) = _
      rw [List.map_map]
      exact List.map_congr_left (fun p hp => (hinv.1 p hp).symm)
    exact h1.trans (keys_foldl ops ⟨[]⟩)
  · by_cases h : n ∈ m.keys
    · simp only [applyOp, SubscriptionManager.remove_subscription, if_pos h, exceptState]
    · simp only [applyOp, SubscriptionManager.remove_subscription, if_neg h, exceptState]
      refine (List.filter_eq_self.mpr ?_).symm
      intro p hp
      simp only [bne_iff_ne, ne_eq]
      intro he
      exact h (he ▸ List.mem_map_of_mem (·.1) hp)

/-- Claim C7: the manager invariant — every key equals the `name` field stored
under it and no two entries share a name — holds for the fresh manager, holds in
every state reachable by a trace of public operations, and is preserved by
every single operation. -/
theorem manager_invariant_spec (ops : List Op) (m : SubscriptionManager) (op : Op) :
    managerInv (⟨[]⟩ : SubscriptionManager) ∧
    managerInv (runOps ops) ∧
    (managerInv m → managerInv (applyOp m op)) :=
  ⟨⟨by simp, List.nodup_nil⟩, inv_runOps ops, inv_applyOp m op⟩

/-- Witness for C7: the sample manager satisfies the invariant, and cancelling
"B" in it preserves the invariant. -/
theorem manager_invariant_witness :
    managerInv mABC ∧ managerInv (applyOp mABC (Op.cancelOp "B")) :=
  ⟨by decide, (manager_invariant_spec [] mABC (Op.cancelOp "B")).2.2 (by decide)⟩

end Claims

end SubscriptionModel
